import Mathlib

/-!
Verification of the `tari_utilities` crate against its specification.

The development shallowly embeds the two source modules:

* `src/safe_array.rs` — `SafeArray<T, N>`, a wrapper around `Vec<T>` with
  constant-time equality, optional zeroization, default construction and
  slice-style access.
* `src/message_format.rs` — the `MessageFormat` trait and its blanket
  implementation over serde types, delegating to bincode, serde_json and
  base64.

Rust `Vec<T>` is modelled as `List T`; machine bytes (`u8`) are modelled as
`Nat` values below 256.  The `subtle::Choice` type is modelled as the `u8`
it wraps (a `Nat` that is 0 or 1), so `unwrap_u8` is the identity.

External crates (`subtle`, `zeroize`, `bincode`, `serde_json`, `base64`)
are not part of this repository; where the sources call into them, the
called operation is modelled from the specification's description of that
collaborator, and the definition's doc comment says so.
-/

namespace TariUtilities

/-- Model of `SafeArray<T, const N: usize>` from `src/safe_array.rs`:
a tuple struct wrapping `Vec<T>`.  The `Vec` is modelled as a `List`;
the length-`N` discipline is not part of the type (the Rust field is an
unconstrained `Vec<T>`), it is an invariant maintained by the public
constructors. -/
structure SafeArray (T : Type) (N : Nat) where
  data : List T
deriving DecidableEq

/-- Model of the associated constant `SafeArray::<T, N>::LEN = N`. -/
def SafeArray.LEN (_T : Type) (N : Nat) : Nat := N

/-- Model of `AsRef<[T]> for SafeArray<T, N>`: `fn as_ref(&self) -> &[T]`
returns a view of the wrapped vector. -/
def SafeArray.as_ref {T : Type} {N : Nat} (a : SafeArray T N) : List T := a.data

/-- Model of `AsMut<[T]> for SafeArray<T, N>`: `fn as_mut(&mut self) -> &mut [T]`
exposes the wrapped vector for mutation; as a view it is the same slice. -/
def SafeArray.as_mut {T : Type} {N : Nat} (a : SafeArray T N) : List T := a.data

/-- Model of `Deref for SafeArray<T, N>` with target `[T]`. -/
def SafeArray.deref {T : Type} {N : Nat} (a : SafeArray T N) : List T := a.data

/-- Model of `DerefMut for SafeArray<T, N>`; as a view it is the same slice. -/
def SafeArray.deref_mut {T : Type} {N : Nat} (a : SafeArray T N) : List T := a.data

/-- Model of an in-place element write through the mutable slice view
obtained from `as_mut`/`deref_mut` (slice writes can replace elements but
can never change the slice's length). -/
def SafeArray.setMut {T : Type} {N : Nat} (a : SafeArray T N) (i : Nat) (x : T) :
    SafeArray T N := ⟨a.data.set i x⟩

/-- Model of the derived `Clone for SafeArray<T, N>`: an element-wise copy
of the wrapped vector. -/
def SafeArray.clone {T : Type} {N : Nat} (a : SafeArray T N) : SafeArray T N := ⟨a.data⟩

/-- Model of `Default for SafeArray<T, N>` where `T: Clone + Default`:
`Self(vec![T::default(); N])`.  The element default value of `T` is passed
explicitly as `d`. -/
def SafeArray.default {T : Type} (N : Nat) (d : T) : SafeArray T N := ⟨List.replicate N d⟩

/-- Modelled from the spec: the wipe of a single element of a `T: Zeroize`
(the `zeroize` crate, an external collaborator not in `src/`) "overwrites
every element with a fixed neutral value".  A theorem that needs this
contract takes the element wipe `zt : T → T` together with the hypothesis
that `zt` is constantly the clear value. -/
def SafeArray.zeroize {T : Type} {N : Nat} (zt : T → T) (a : SafeArray T N) :
    SafeArray T N := ⟨a.data.map zt⟩

/-- Modelled from the spec: the slice constant-time comparison supplied by
the external `subtle` crate, which `SafeArray::ct_eq` delegates to
(`self.0.ct_eq(&other.0)`).  Per the spec it compares "all N element pairs
unconditionally", "accumulating a difference signal … across all N
positions, then reducing to a single boolean at the end — never via early
return": a length guard, then a fold of the per-element `ct_eq` bits with
bitwise AND starting from 1.  `ct : T → T → Nat` is the element-level
`ct_eq`, returning the byte wrapped inside `subtle::Choice`. -/
def ctEqSlice {T : Type} (ct : T → T → Nat) (xs ys : List T) : Nat :=
  if xs.length = ys.length then
    (List.zip xs ys).foldl (fun acc p => acc &&& ct p.1 p.2) 1
  else 0

/-- Model of `ConstantTimeEq for SafeArray<T, N>` where `T: ConstantTimeEq`:
`fn ct_eq(&self, other: &Self) -> Choice { self.0.ct_eq(&other.0) }`.
The returned `Choice` is modelled as its wrapped byte. -/
def SafeArray.ct_eq {T : Type} {N : Nat} (ct : T → T → Nat) (a b : SafeArray T N) : Nat :=
  ctEqSlice ct a.data b.data

/-- Model of `PartialEq for SafeArray<T, N>` where `T: ConstantTimeEq`:
`fn eq(&self, other: &Self) -> bool { self.ct_eq(other).unwrap_u8() == 1u8 }`.
`unwrap_u8` on the modelled `Choice` is the identity. -/
def SafeArray.eq {T : Type} {N : Nat} (ct : T → T → Nat) (a b : SafeArray T N) : Bool :=
  SafeArray.ct_eq ct a b == 1

/-- Modelled from the spec: the semantic contract of the external `subtle`
crate's `u8::ct_eq` ("rely on a vetted constant-time-equality building
block for primitive element types"): the wrapped byte is 1 exactly when the
two bytes are equal. -/
def ctEqU8 (a b : Nat) : Nat := if a = b then 1 else 0

/-- Instrumented variant of `ctEqSlice` that additionally counts how many
per-element `ct_eq` invocations the fold performs: the first component is
the accumulated comparison byte, the second the number of element pairs
visited. -/
def ctEqSliceInstr {T : Type} (ct : T → T → Nat) (xs ys : List T) : Nat × Nat :=
  if xs.length = ys.length then
    (List.zip xs ys).foldl (fun acc p => (acc.1 &&& ct p.1 p.2, acc.2 + 1)) (1, 0)
  else (0, 0)

/- ### Helper lemmas about the constant-time fold -/

theorem foldl_band_eq_one_iff {T : Type} (ct : T → T → Nat)
    (h01 : ∀ x y, ct x y = 0 ∨ ct x y = 1) :
    ∀ (l : List (T × T)) (acc : Nat), acc = 0 ∨ acc = 1 →
      (l.foldl (fun a p => a &&& ct p.1 p.2) acc = 1 ↔
        acc = 1 ∧ ∀ p ∈ l, ct p.1 p.2 = 1) := by
  intro l
  induction l with
  | nil => intro acc _; simp
  | cons p l ih =>
    intro acc hacc
    have hstep : acc &&& ct p.1 p.2 = 0 ∨ acc &&& ct p.1 p.2 = 1 := by
      rcases hacc with h | h <;> rcases h01 p.1 p.2 with h2 | h2 <;>
        simp [h, h2]
    have := ih (acc &&& ct p.1 p.2) hstep
    rcases hacc with h | h <;> rcases h01 p.1 p.2 with h2 | h2 <;>
      simp [h, h2] at this ⊢ <;> simp [this]

theorem zip_all_eq_iff {T : Type} :
    ∀ (xs ys : List T), xs.length = ys.length →
      ((∀ p ∈ List.zip xs ys, p.1 = p.2) ↔ xs = ys) := by
  intro xs
  induction xs with
  | nil => intro ys h; cases ys <;> simp_all
  | cons x xs ih =>
    intro ys h
    cases ys with
    | nil => simp at h
    | cons y ys =>
      simp only [List.length_cons, Nat.add_left_inj] at h
      constructor
      · intro hall
        have hx : x = y := hall (x, y) (by
          rw [List.zip_cons_cons]; exact List.mem_cons_self _ _)
        have hxs : xs = ys := (ih ys h).mp (fun p hp => hall p (by
          rw [List.zip_cons_cons]; exact List.mem_cons_of_mem _ hp))
        rw [hx, hxs]
      · intro heq
        injection heq with hx hxs
        subst hx; subst hxs
        intro p hp
        rw [List.zip_cons_cons] at hp
        rcases List.mem_cons.mp hp with h1 | h1
        · subst h1; rfl
        · exact (ih xs rfl).mpr rfl p h1

/-- Core characterisation of the slice comparison: assuming the `subtle`
contract for the element comparison (bit-valued, and 1 exactly on equal
elements), the accumulated byte is 1 exactly when the two lists are
equal. -/
theorem ctEqSlice_eq_one_iff {T : Type} (ct : T → T → Nat)
    (h01 : ∀ x y, ct x y = 0 ∨ ct x y = 1)
    (hct : ∀ x y, ct x y = 1 ↔ x = y) (xs ys : List T) :
    ctEqSlice ct xs ys = 1 ↔ xs = ys := by
  unfold ctEqSlice
  by_cases hlen : xs.length = ys.length
  · rw [if_pos hlen, foldl_band_eq_one_iff ct h01 _ 1 (Or.inr rfl)]
    have hz := zip_all_eq_iff xs ys hlen
    constructor
    · intro h
      exact hz.mp (fun p hp => (hct p.1 p.2).mp (h.2 p hp))
    · intro h
      exact ⟨rfl, fun p hp => (hct p.1 p.2).mpr (hz.mpr h p hp)⟩
  · rw [if_neg hlen]
    constructor
    · intro h; exact absurd h (by simp)
    · intro h; exact absurd (congrArg List.length h) hlen

theorem foldl_instr_spec {T : Type} (ct : T → T → Nat) :
    ∀ (l : List (T × T)) (v k : Nat),
      l.foldl (fun acc p => (acc.1 &&& ct p.1 p.2, acc.2 + 1)) (v, k) =
        (l.foldl (fun a p => a &&& ct p.1 p.2) v, k + l.length) := by
  intro l
  induction l with
  | nil => intro v k; simp
  | cons p l ih =>
    intro v k
    rw [List.foldl_cons, List.foldl_cons, ih, Prod.mk.injEq]
    refine ⟨rfl, ?_⟩
    simp only [List.length_cons]
    omega

theorem ctEqU8_01 (x y : Nat) : ctEqU8 x y = 0 ∨ ctEqU8 x y = 1 := by
  unfold ctEqU8; split <;> simp

theorem ctEqU8_eq_one_iff (x y : Nat) : ctEqU8 x y = 1 ↔ x = y := by
  unfold ctEqU8; split <;> simp_all

/-- Concrete three-element buffer used to witness the generic theorems. -/
def wArr1 : SafeArray Nat 3 := ⟨[1, 2, 3]⟩

/-- Second concrete three-element buffer used to witness the generic theorems. -/
def wArr2 : SafeArray Nat 3 := ⟨[1, 2, 4]⟩

/- ### Claim theorems for `safe_array.rs` -/

/-- C1: for every element type with a constant-time equality obeying the
`subtle` contract (bit-valued, 1 exactly on equal elements), `==` on
`SafeArray<T, N>` returns true exactly when `ct_eq` of the two buffers
yields 1, and the buffers compare equal exactly when their contents agree
element for element. -/
theorem safe_array_eq_via_ct_eq {T : Type} {N : Nat} (ct : T → T → Nat)
    (h01 : ∀ x y, ct x y = 0 ∨ ct x y = 1)
    (hct : ∀ x y, ct x y = 1 ↔ x = y) (a b : SafeArray T N) :
    (SafeArray.eq ct a b = true ↔ SafeArray.ct_eq ct a b = 1) ∧
    (SafeArray.eq ct a b = true ↔ a.data = b.data) := by
  have h1 : SafeArray.eq ct a b = true ↔ SafeArray.ct_eq ct a b = 1 := by
    simp [SafeArray.eq]
  exact ⟨h1, h1.trans (ctEqSlice_eq_one_iff ct h01 hct a.data b.data)⟩

/-- Witness for C1 at two concrete equal-length byte buffers. -/
theorem safe_array_eq_via_ct_eq_witness :
    (SafeArray.eq ctEqU8 wArr1 wArr2 = true ↔ SafeArray.ct_eq ctEqU8 wArr1 wArr2 = 1) ∧
    (SafeArray.eq ctEqU8 wArr1 wArr2 = true ↔ wArr1.data = wArr2.data) :=
  safe_array_eq_via_ct_eq ctEqU8 ctEqU8_01 ctEqU8_eq_one_iff wArr1 wArr2

/-- C2: on buffers of length N the comparison underlying `ct_eq` performs
exactly N per-element comparisons whatever the contents — the instrumented
fold's visit count is N for all inputs, so no mismatch position can shorten
the run — and its accumulated byte agrees with `ct_eq`. -/
theorem ct_eq_visits_all_pairs {T : Type} {N : Nat} (ct : T → T → Nat)
    (a b : SafeArray T N) (ha : a.data.length = N) (hb : b.data.length = N) :
    (ctEqSliceInstr ct a.data b.data).2 = N ∧
    (ctEqSliceInstr ct a.data b.data).1 = SafeArray.ct_eq ct a b := by
  have hlen : a.data.length = b.data.length := by rw [ha, hb]
  unfold ctEqSliceInstr SafeArray.ct_eq ctEqSlice
  rw [if_pos hlen, if_pos hlen, foldl_instr_spec]
  constructor
  · simp [List.length_zip, ha, hb]
  · rfl

/-- Witness for C2 at two concrete buffers differing in the last position. -/
theorem ct_eq_visits_all_pairs_witness :
    (ctEqSliceInstr ctEqU8 wArr1.data wArr2.data).2 = 3 ∧
    (ctEqSliceInstr ctEqU8 wArr1.data wArr2.data).1 = SafeArray.ct_eq ctEqU8 wArr1 wArr2 :=
  ct_eq_visits_all_pairs ctEqU8 wArr1 wArr2 (by rfl) (by rfl)

/-- C4: `SafeArray::<T, N>::default()` builds a buffer of length exactly N
whose every element is the element type's default value. -/
theorem safe_array_default_spec (T : Type) (N : Nat) (d : T) :
    (SafeArray.default N d : SafeArray T N).data.length = N ∧
    ∀ x ∈ (SafeArray.default N d : SafeArray T N).data, x = d := by
  refine ⟨by simp [SafeArray.default], ?_⟩
  intro x hx
  exact List.eq_of_mem_replicate hx

/-- C5: a buffer satisfying the length-N invariant keeps it under every
public operation: `as_ref`, `as_mut`, `deref` and `deref_mut` expose a
slice of length exactly N, and element writes through the mutable view,
zeroization, cloning and default construction all produce length N. -/
theorem safe_array_length_invariant {T : Type} {N : Nat} (a : SafeArray T N)
    (ha : a.data.length = N) (i : Nat) (x : T) (zt : T → T) (d : T) :
    (SafeArray.as_ref a).length = N ∧
    (SafeArray.as_mut a).length = N ∧
    (SafeArray.deref a).length = N ∧
    (SafeArray.deref_mut a).length = N ∧
    (SafeArray.setMut a i x).data.length = N ∧
    (SafeArray.zeroize zt a).data.length = N ∧
    (SafeArray.clone a).data.length = N ∧
    (SafeArray.default N d : SafeArray T N).data.length = N := by
  simp [SafeArray.as_ref, SafeArray.as_mut, SafeArray.deref, SafeArray.deref_mut,
    SafeArray.setMut, SafeArray.zeroize, SafeArray.clone, SafeArray.default, ha]

/-- Witness for C5 at a concrete length-3 buffer with a concrete write,
wipe and default value. -/
theorem safe_array_length_invariant_witness :
    (SafeArray.as_ref wArr1).length = 3 ∧
    (SafeArray.as_mut wArr1).length = 3 ∧
    (SafeArray.deref wArr1).length = 3 ∧
    (SafeArray.deref_mut wArr1).length = 3 ∧
    (SafeArray.setMut wArr1 1 9).data.length = 3 ∧
    (SafeArray.zeroize (fun _ => 0) wArr1).data.length = 3 ∧
    (SafeArray.clone wArr1).data.length = 3 ∧
    (SafeArray.default 3 0 : SafeArray Nat 3).data.length = 3 :=
  safe_array_length_invariant wArr1 (by rfl) 1 9 (fun _ => 0) 0

/-- C6: when the element wipe overwrites every element with the fixed clear
value, after `zeroize` every element of the buffer equals that clear value,
and wiping a second time changes nothing. -/
theorem safe_array_zeroize_spec {T : Type} {N : Nat} (zt : T → T) (cv : T)
    (hzt : ∀ x, zt x = cv) (a : SafeArray T N) :
    (∀ x ∈ (SafeArray.zeroize zt a).data, x = cv) ∧
    SafeArray.zeroize zt (SafeArray.zeroize zt a) = SafeArray.zeroize zt a := by
  constructor
  · intro x hx
    simp only [SafeArray.zeroize, List.mem_map] at hx
    obtain ⟨y, _, hy⟩ := hx
    rw [← hy, hzt]
  · unfold SafeArray.zeroize
    simp only [List.map_map, SafeArray.mk.injEq]
    apply List.map_congr_left
    intro x _
    simp [Function.comp, hzt]

/-- Witness for C6 at a concrete buffer with the byte wipe to zero. -/
theorem safe_array_zeroize_spec_witness :
    (∀ x ∈ (SafeArray.zeroize (fun _ => 0) wArr1).data, x = 0) ∧
    SafeArray.zeroize (fun _ => 0) (SafeArray.zeroize (fun _ => 0) wArr1) =
      SafeArray.zeroize (fun _ => 0) wArr1 :=
  safe_array_zeroize_spec (fun _ => 0) 0 (fun _ => rfl) wArr1

/-- C7: under the `subtle` contract for the element comparison, `==` on
`SafeArray<T, N>` is reflexive, symmetric and transitive. -/
theorem safe_array_eq_equivalence {T : Type} {N : Nat} (ct : T → T → Nat)
    (h01 : ∀ x y, ct x y = 0 ∨ ct x y = 1)
    (hct : ∀ x y, ct x y = 1 ↔ x = y) (a b c : SafeArray T N) :
    SafeArray.eq ct a a = true ∧
    (SafeArray.eq ct a b = true → SafeArray.eq ct b a = true) ∧
    (SafeArray.eq ct a b = true → SafeArray.eq ct b c = true →
      SafeArray.eq ct a c = true) := by
  have key : ∀ u v : SafeArray T N, SafeArray.eq ct u v = true ↔ u.data = v.data := by
    intro u v
    have h1 : SafeArray.eq ct u v = true ↔ SafeArray.ct_eq ct u v = 1 := by
      simp [SafeArray.eq]
    exact h1.trans (ctEqSlice_eq_one_iff ct h01 hct u.data v.data)
  refine ⟨(key a a).mpr rfl, ?_, ?_⟩
  · intro h; exact (key b a).mpr ((key a b).mp h).symm
  · intro h1 h2; exact (key a c).mpr (((key a b).mp h1).trans ((key b c).mp h2))

/-- Witness for C7 at three concrete buffers. -/
theorem safe_array_eq_equivalence_witness :
    SafeArray.eq ctEqU8 wArr1 wArr1 = true ∧
    (SafeArray.eq ctEqU8 wArr1 wArr2 = true → SafeArray.eq ctEqU8 wArr2 wArr1 = true) ∧
    (SafeArray.eq ctEqU8 wArr1 wArr2 = true → SafeArray.eq ctEqU8 wArr2 wArr2 = true →
      SafeArray.eq ctEqU8 wArr1 wArr2 = true) :=
  safe_array_eq_equivalence ctEqU8 ctEqU8_01 ctEqU8_eq_one_iff wArr1 wArr2 wArr2

/- ### Model of `message_format.rs` -/

/-- Model of Rust's `Result::map_err` with the constant error functions used
throughout `message_format.rs` to collapse an external error into a
`MessageFormatError` variant. -/
def mapErr {ε ε' α : Type} (f : ε → ε') : Except ε α → Except ε' α
  | Except.ok a => Except.ok a
  | Except.error e => Except.error (f e)

/-- Model of the `MessageFormatError` enum from `message_format.rs`: four
variants, each an empty struct variant carrying no cause value. -/
inductive MessageFormatError where
  | BinarySerializeError
  | BinaryDeserializeError
  | JSONError
  | Base64DeserializeError
deriving DecidableEq

/-- Modelled from the spec: the external serialization collaborators of the
blanket `MessageFormat` impl — bincode for the binary form and serde_json
for JSON — for a serde-serializable type `α`.  Either direction can fail;
the callers discard the external error detail, so failures carry `Unit`.
Rust strings are modelled as `List Char` and byte vectors as `List Nat`. -/
structure SerdeCodec (α : Type) where
  bincodeSerialize : α → Except Unit (List Nat)
  bincodeDeserialize : List Nat → Except Unit α
  jsonSerialize : α → Except Unit (List Char)
  jsonDeserialize : List Char → Except Unit α

/-- Modelled from the spec: the standard base64 alphabet used by the
external `base64` crate ("standard alphabet, no line wrapping"). -/
def b64Alphabet : List Char :=
  ['A', 'B', 'C', 'D', 'E', 'F', 'G', 'H', 'I', 'J', 'K', 'L', 'M',
   'N', 'O', 'P', 'Q', 'R', 'S', 'T', 'U', 'V', 'W', 'X', 'Y', 'Z',
   'a', 'b', 'c', 'd', 'e', 'f', 'g', 'h', 'i', 'j', 'k', 'l', 'm',
   'n', 'o', 'p', 'q', 'r', 's', 't', 'u', 'v', 'w', 'x', 'y', 'z',
   '0', '1', '2', '3', '4', '5', '6', '7', '8', '9', '+', '/']

/-- Character for a six-bit group. -/
def sextetChar (n : Nat) : Char := b64Alphabet.getD n 'A'

/-- Index of a character in the base64 alphabet; fails on characters
outside the alphabet (in particular on the padding character). -/
def b64CharIndex (c : Char) : Except Unit Nat :=
  if b64Alphabet.indexOf c < 64 then Except.ok (b64Alphabet.indexOf c) else Except.error ()

/-- Modelled from the spec: `base64::encode` (external crate): the
standard-alphabet, padded, non-line-wrapped base64 encoding of a byte
sequence, three bytes to four characters, with `=` padding for a final
group of one or two bytes. -/
def b64EncodeGroups : List Nat → List Char
  | [] => []
  | [b] => [sextetChar (b / 4), sextetChar (b % 4 * 16), '=', '=']
  | [b, c] => [sextetChar (b / 4), sextetChar (b % 4 * 16 + c / 16),
      sextetChar (c % 16 * 4), '=']
  | b :: c :: d :: rest =>
      sextetChar (b / 4) :: sextetChar (b % 4 * 16 + c / 16) ::
      sextetChar (c % 16 * 4 + d / 64) :: sextetChar (d % 64) :: b64EncodeGroups rest

/-- Modelled from the spec: `base64::decode` (external crate): decodes
four-character groups over the standard alphabet, padding allowed only in
the final group, rejecting characters outside the alphabet and inputs whose
length is not a multiple of four. -/
def b64DecodeGroups : List Char → Except Unit (List Nat)
  | [] => Except.ok []
  | c1 :: c2 :: c3 :: c4 :: rest =>
    (match b64CharIndex c1, b64CharIndex c2 with
    | Except.ok s1, Except.ok s2 =>
      if c3 = '=' then
        if c4 = '=' ∧ rest = [] then Except.ok [s1 * 4 + s2 / 16] else Except.error ()
      else
        (match b64CharIndex c3 with
        | Except.ok s3 =>
          if c4 = '=' then
            if rest = [] then Except.ok [s1 * 4 + s2 / 16, s2 % 16 * 16 + s3 / 4]
            else Except.error ()
          else
            (match b64CharIndex c4, b64DecodeGroups rest with
            | Except.ok s4, Except.ok tl =>
                Except.ok ((s1 * 4 + s2 / 16) :: (s2 % 16 * 16 + s3 / 4) ::
                  (s3 % 4 * 64 + s4) :: tl)
            | _, _ => Except.error ())
        | _ => Except.error ())
    | _, _ => Except.error ())
  | _ => Except.error ()

/-- Model of `fn to_binary` from the blanket impl:
`bincode::serialize(self).map_err(|_| BinarySerializeError)`. -/
def MessageFormat.to_binary {α : Type} (C : SerdeCodec α) (x : α) :
    Except MessageFormatError (List Nat) :=
  mapErr (fun _ => MessageFormatError.BinarySerializeError) (C.bincodeSerialize x)

/-- Model of `fn from_binary` from the blanket impl:
`bincode::deserialize(msg).map_err(|_| BinaryDeserializeError)`. -/
def MessageFormat.from_binary {α : Type} (C : SerdeCodec α) (msg : List Nat) :
    Except MessageFormatError α :=
  mapErr (fun _ => MessageFormatError.BinaryDeserializeError) (C.bincodeDeserialize msg)

/-- Model of `fn to_json` from the blanket impl:
`serde_json::to_string(self).map_err(|_| JSONError)`. -/
def MessageFormat.to_json {α : Type} (C : SerdeCodec α) (x : α) :
    Except MessageFormatError (List Char) :=
  mapErr (fun _ => MessageFormatError.JSONError) (C.jsonSerialize x)

/-- Model of `fn from_json` from the blanket impl: deserialize from the
JSON text, mapping any failure to `JSONError`. -/
def MessageFormat.from_json {α : Type} (C : SerdeCodec α) (msg : List Char) :
    Except MessageFormatError α :=
  mapErr (fun _ => MessageFormatError.JSONError) (C.jsonDeserialize msg)

/-- Model of `fn to_base64` from the blanket impl:
`let val = self.to_binary()?; Ok(base64::encode(val))`. -/
def MessageFormat.to_base64 {α : Type} (C : SerdeCodec α) (x : α) :
    Except MessageFormatError (List Char) :=
  match MessageFormat.to_binary C x with
  | Except.error e => Except.error e
  | Except.ok val => Except.ok (b64EncodeGroups val)

/-- Model of `fn from_base64` from the blanket impl:
`let buf = base64::decode(msg).map_err(|_| Base64DeserializeError)?;
Self::from_binary(&buf)`. -/
def MessageFormat.from_base64 {α : Type} (C : SerdeCodec α) (msg : List Char) :
    Except MessageFormatError α :=
  match mapErr (fun _ => MessageFormatError.Base64DeserializeError) (b64DecodeGroups msg) with
  | Except.error e => Except.error e
  | Except.ok buf => MessageFormat.from_binary C buf

/- ### Helper lemmas about the base64 model -/

deriving instance DecidableEq for Except

theorem sextet_index_fin : ∀ n : Fin 64, b64CharIndex (sextetChar n.val) = Except.ok n.val := by
  decide

theorem sextet_ne_pad_fin : ∀ n : Fin 64, sextetChar n.val ≠ '=' := by
  decide

theorem sextet_mem_fin : ∀ n : Fin 64, sextetChar n.val ∈ b64Alphabet := by
  decide

theorem sextet_index {n : Nat} (h : n < 64) : b64CharIndex (sextetChar n) = Except.ok n :=
  sextet_index_fin ⟨n, h⟩

theorem sextet_ne_pad {n : Nat} (h : n < 64) : sextetChar n ≠ '=' :=
  sextet_ne_pad_fin ⟨n, h⟩

theorem sextet_mem {n : Nat} (h : n < 64) : sextetChar n ∈ b64Alphabet :=
  sextet_mem_fin ⟨n, h⟩

/-- Decoding inverts encoding on every byte sequence. -/
theorem b64_decode_encode : ∀ (bs : List Nat), (∀ b ∈ bs, b < 256) →
    b64DecodeGroups (b64EncodeGroups bs) = Except.ok bs
  | [], _ => rfl
  | [b], h => by
    have hb : b < 256 := h b (by simp)
    have h1 : b / 4 < 64 := by omega
    have h2 : b % 4 * 16 < 64 := by omega
    simp [b64EncodeGroups, b64DecodeGroups, sextet_index h1, sextet_index h2]
    omega
  | [b, c], h => by
    have hb : b < 256 := h b (by simp)
    have hc : c < 256 := h c (by simp)
    have h1 : b / 4 < 64 := by omega
    have h2 : b % 4 * 16 + c / 16 < 64 := by omega
    have h3 : c % 16 * 4 < 64 := by omega
    simp [b64EncodeGroups, b64DecodeGroups, sextet_index h1, sextet_index h2,
      sextet_index h3, sextet_ne_pad h3]
    omega
  | b :: c :: d :: rest, h => by
    have hb : b < 256 := h b (by simp)
    have hc : c < 256 := h c (by simp)
    have hd : d < 256 := h d (by simp)
    have ih := b64_decode_encode rest (fun x hx => h x (by simp [hx]))
    have h1 : b / 4 < 64 := by omega
    have h2 : b % 4 * 16 + c / 16 < 64 := by omega
    have h3 : c % 16 * 4 + d / 64 < 64 := by omega
    have h4 : d % 64 < 64 := by omega
    simp [b64EncodeGroups, b64DecodeGroups, sextet_index h1, sextet_index h2,
      sextet_index h3, sextet_index h4, sextet_ne_pad h3, sextet_ne_pad h4, ih]
    omega

/-- Every character the encoder emits is an alphabet character or the
padding character; in particular the output contains no line breaks. -/
theorem b64_encode_chars : ∀ (bs : List Nat), (∀ b ∈ bs, b < 256) →
    ∀ ch ∈ b64EncodeGroups bs, ch ∈ b64Alphabet ∨ ch = '='
  | [], _ => by simp [b64EncodeGroups]
  | [b], h => by
    have hb : b < 256 := h b (by simp)
    intro ch hch
    simp only [b64EncodeGroups, List.mem_cons, List.not_mem_nil, or_false] at hch
    rcases hch with h1 | h1 | h1
    · subst h1; exact Or.inl (sextet_mem (by omega))
    · subst h1; exact Or.inl (sextet_mem (by omega))
    · rcases h1 with h1 | h1 <;> exact Or.inr h1
  | [b, c], h => by
    have hb : b < 256 := h b (by simp)
    have hc : c < 256 := h c (by simp)
    intro ch hch
    simp only [b64EncodeGroups, List.mem_cons, List.not_mem_nil, or_false] at hch
    rcases hch with h1 | h1 | h1 | h1
    · subst h1; exact Or.inl (sextet_mem (by omega))
    · subst h1; exact Or.inl (sextet_mem (by omega))
    · subst h1; exact Or.inl (sextet_mem (by omega))
    · exact Or.inr h1
  | b :: c :: d :: rest, h => by
    have hb : b < 256 := h b (by simp)
    have hc : c < 256 := h c (by simp)
    have hd : d < 256 := h d (by simp)
    have ih := b64_encode_chars rest (fun x hx => h x (by simp [hx]))
    intro ch hch
    simp only [b64EncodeGroups, List.mem_cons] at hch
    rcases hch with h1 | h1 | h1 | h1 | h1
    · subst h1; exact Or.inl (sextet_mem (by omega))
    · subst h1; exact Or.inl (sextet_mem (by omega))
    · subst h1; exact Or.inl (sextet_mem (by omega))
    · subst h1; exact Or.inl (sextet_mem (by omega))
    · exact ih ch h1

/-- Concrete two-value codec used to witness the generic message-format
theorems: booleans as a single byte, and as a single-character text. -/
def boolCodec : SerdeCodec Bool where
  bincodeSerialize b := Except.ok [if b then 1 else 0]
  bincodeDeserialize l :=
    match l with
    | [1] => Except.ok true
    | [0] => Except.ok false
    | _ => Except.error ()
  jsonSerialize b := Except.ok (if b then ['t'] else ['f'])
  jsonDeserialize s :=
    match s with
    | ['t'] => Except.ok true
    | ['f'] => Except.ok false
    | _ => Except.error ()

/- ### Claim theorems for `message_format.rs` -/

/-- C8: whenever the external codecs invert their own successful
serializations, every `MessageFormat` conversion round-trips: a successful
`to_binary` is inverted by `from_binary`, a successful `to_json` by
`from_json`, and a successful `to_base64` by `from_base64`. -/
theorem message_format_roundtrip {α : Type} (C : SerdeCodec α)
    (hbin : ∀ x bs, C.bincodeSerialize x = Except.ok bs →
      C.bincodeDeserialize bs = Except.ok x)
    (hjson : ∀ x s, C.jsonSerialize x = Except.ok s →
      C.jsonDeserialize s = Except.ok x)
    (hbytes : ∀ x bs, C.bincodeSerialize x = Except.ok bs → ∀ b ∈ bs, b < 256)
    (x : α) :
    (∀ bs, MessageFormat.to_binary C x = Except.ok bs →
      MessageFormat.from_binary C bs = Except.ok x) ∧
    (∀ s, MessageFormat.to_json C x = Except.ok s →
      MessageFormat.from_json C s = Except.ok x) ∧
    (∀ s, MessageFormat.to_base64 C x = Except.ok s →
      MessageFormat.from_base64 C s = Except.ok x) := by
  refine ⟨?_, ?_, ?_⟩
  · intro bs hser
    cases hx : C.bincodeSerialize x with
    | error e => simp [MessageFormat.to_binary, mapErr, hx] at hser
    | ok v =>
      simp [MessageFormat.to_binary, mapErr, hx] at hser
      subst hser
      simp [MessageFormat.from_binary, mapErr, hbin x v hx]
  · intro s hser
    cases hx : C.jsonSerialize x with
    | error e => simp [MessageFormat.to_json, mapErr, hx] at hser
    | ok v =>
      simp [MessageFormat.to_json, mapErr, hx] at hser
      subst hser
      simp [MessageFormat.from_json, mapErr, hjson x v hx]
  · intro s hser
    cases hx : C.bincodeSerialize x with
    | error e =>
      simp [MessageFormat.to_base64, MessageFormat.to_binary, mapErr, hx] at hser
    | ok v =>
      simp [MessageFormat.to_base64, MessageFormat.to_binary, mapErr, hx] at hser
      subst hser
      simp [MessageFormat.from_base64, mapErr,
        b64_decode_encode v (hbytes x v hx),
        MessageFormat.from_binary, hbin x v hx]

/-- Witness for C8 at the concrete boolean codec and the value `true`. -/
theorem message_format_roundtrip_witness :
    (∀ bs, MessageFormat.to_binary boolCodec true = Except.ok bs →
      MessageFormat.from_binary boolCodec bs = Except.ok true) ∧
    (∀ s, MessageFormat.to_json boolCodec true = Except.ok s →
      MessageFormat.from_json boolCodec s = Except.ok true) ∧
    (∀ s, MessageFormat.to_base64 boolCodec true = Except.ok s →
      MessageFormat.from_base64 boolCodec s = Except.ok true) :=
  message_format_roundtrip boolCodec
    (by intro x bs hx; cases x <;> simp [boolCodec] at hx <;> subst hx <;> rfl)
    (by intro x s hx; cases x <;> simp [boolCodec] at hx <;> subst hx <;> rfl)
    (by intro x bs hx; cases x <;> simp [boolCodec] at hx <;> subst hx <;> decide)
    true

/-- C9: `to_base64` succeeds exactly on the bytes of `to_binary`, emitting
their standard-alphabet base64 encoding; `from_base64` first base64-decodes
its input and then feeds the decoded bytes to `from_binary`; and the
encoder's output uses only alphabet characters and padding (no line
wrapping). -/
theorem to_base64_is_base64_of_binary {α : Type} (C : SerdeCodec α) (x : α)
    (s : List Char) (bs : List Nat) (hbs : ∀ b ∈ bs, b < 256) :
    (MessageFormat.to_base64 C x = Except.map b64EncodeGroups (MessageFormat.to_binary C x)) ∧
    (MessageFormat.from_base64 C s =
      match b64DecodeGroups s with
      | Except.error _ => Except.error MessageFormatError.Base64DeserializeError
      | Except.ok buf => MessageFormat.from_binary C buf) ∧
    (∀ ch ∈ b64EncodeGroups bs, ch ∈ b64Alphabet ∨ ch = '=') := by
  refine ⟨?_, ?_, b64_encode_chars bs hbs⟩
  · cases hx : MessageFormat.to_binary C x <;> simp [MessageFormat.to_base64, hx, Except.map]
  · cases hdec : b64DecodeGroups s <;> simp [MessageFormat.from_base64, mapErr, hdec]

/-- Witness for C9 at the boolean codec, a concrete input character list
and the concrete byte list of the test vector `[20]`. -/
theorem to_base64_is_base64_of_binary_witness :
    (MessageFormat.to_base64 boolCodec true =
      Except.map b64EncodeGroups (MessageFormat.to_binary boolCodec true)) ∧
    (MessageFormat.from_base64 boolCodec ['A', 'Q', '=', '='] =
      match b64DecodeGroups ['A', 'Q', '=', '='] with
      | Except.error _ => Except.error MessageFormatError.Base64DeserializeError
      | Except.ok buf => MessageFormat.from_binary boolCodec buf) ∧
    (∀ ch ∈ b64EncodeGroups [20], ch ∈ b64Alphabet ∨ ch = '=') :=
  to_base64_is_base64_of_binary boolCodec true ['A', 'Q', '=', '='] [20] (by decide)

/-- C10: every `MessageFormatError` is one of the four payload-free
variants, and `from_base64` fails with `Base64DeserializeError` exactly
when base64 decoding of the input fails (a decoding success that then
fails binary deserialization yields `BinaryDeserializeError` instead). -/
theorem message_format_error_taxonomy {α : Type} (C : SerdeCodec α) (s : List Char) :
    (∀ e : MessageFormatError,
      e = MessageFormatError.BinarySerializeError ∨
      e = MessageFormatError.BinaryDeserializeError ∨
      e = MessageFormatError.JSONError ∨
      e = MessageFormatError.Base64DeserializeError) ∧
    (MessageFormat.from_base64 C s = Except.error MessageFormatError.Base64DeserializeError ↔
      b64DecodeGroups s = Except.error ()) := by
  constructor
  · intro e; cases e
    · exact Or.inl rfl
    · exact Or.inr (Or.inl rfl)
    · exact Or.inr (Or.inr (Or.inl rfl))
    · exact Or.inr (Or.inr (Or.inr rfl))
  · cases hdec : b64DecodeGroups s with
    | error u => cases u; simp [MessageFormat.from_base64, mapErr, hdec]
    | ok buf =>
      simp only [MessageFormat.from_base64, mapErr, hdec]
      cases hser : C.bincodeDeserialize buf <;>
        simp [MessageFormat.from_binary, mapErr, hser]

end TariUtilities
